import Mathlib

/-!
Verification of the returnTrend news-aggregation bot.

Shallow embedding of the core pipeline of the repository: article merge and
truncation (`utils/helpers.py`, `tasks/news_tasks.py`), cleanup
(`tasks/news_tasks.py`), keyword/LLM categorization
(`services/news_processor.py`), LLM ranking with heuristic fallback
(`services/llm.py`), the Telegram message chunker and message builder
(`bot.py`), the background task scheduler (`tasks/scheduler.py`) and the
JSON storage layer (`utils/storage.py`).

Python strings are modelled as Lean `String` / `List Char`; Python `dict`s
(which preserve insertion order) as association lists; machine-independent
Python integers as `Int`/`Nat`; fractional scores as `ℚ`; external effects
(the LLM backend, the clock, ISO-8601 parsing, file I/O) as explicit
parameters or outcome values.
-/

namespace ReturnTrend

/-! ### Generic helpers: association-list lookup and Python's stable sort -/

/-- Ordered-dictionary lookup: first entry whose key matches. -/
def alookup {α : Type} (m : List (String × α)) (t : String) : Option α :=
  match m with
  | [] => none
  | p :: r => if p.1 = t then some p.2 else alookup r t

/-- Python's `sorted(..., key=key, reverse=True)`: a stable descending sort.
`leB` is the (boolean) total order on keys.  Stability matches
`List.insertionSort` with the relation "my key is at least yours". -/
def sortDescBy {α β : Type} (key : α → β) (leB : β → β → Bool) (l : List α) :
    List α :=
  List.insertionSort (fun a b => leB (key b) (key a) = true) l

/-- Boolean order on `Int` (kernel-computable). -/
def intLeB (a b : Int) : Bool := decide (a ≤ b)

/-- Boolean order on `ℚ` (used by the heuristic ranking fallback). -/
def ratLeB (a b : ℚ) : Bool := decide (a ≤ b)

/-- Python's lexicographic string comparison (by code point), as used when
sorting articles by their `published_date` strings. -/
def strLeB : List Char → List Char → Bool
  | [], _ => true
  | _ :: _, [] => false
  | a :: as, b :: bs => if a = b then strLeB as bs else decide (a < b)

/-! ### Data model: articles as stored by the pipeline -/

/-- A stored article record; only the fields the merge/cleanup logic reads.
`id` and `published_date` are `Option` because `dict.get` can yield `None`. -/
structure Article where
  id : Option String
  title : String
  published_date : Option String
  deriving DecidableEq, Repr

/-- The sort key used by both merge paths: `x.get('published_date', '')`. -/
def pubKey (a : Article) : List Char := (a.published_date.getD "").data

/-- An identifier is "truthy" in Python iff it is present and non-empty. -/
def truthyId : Option String → Bool
  | none => false
  | some s => s ≠ ""

/-! ### `utils/helpers.py` — `merge_articles` -/

/-- `{article.get('id') for article in existing_articles if article.get('id')}`:
the set of truthy identifiers of the existing batch. -/
def existingTruthyIds (existing : List Article) : List String :=
  existing.filterMap (fun a =>
    match a.id with
    | none => none
    | some s => if s = "" then none else some s)

/-- The filter `article.get('id') not in existing_ids` applied to an incoming
article (`None` and `""` are never members of the truthy-id set). -/
def mergeKeepIncoming (existing : List Article) (a : Article) : Bool :=
  match a.id with
  | none => true
  | some s => ¬ (existingTruthyIds existing).contains s

/-- `merge_articles(existing_articles, new_articles)` from `utils/helpers.py`:
early returns for an empty side, dedup of incoming against truthy existing
ids, then a stable descending sort on `published_date` (missing dates sort
with an empty-string key). -/
def merge_articles (existing incoming : List Article) : List Article :=
  if existing = [] then incoming
  else if incoming = [] then existing
  else
    sortDescBy pubKey strLeB
      (existing ++ incoming.filter (mergeKeepIncoming existing))

/-! ### `tasks/news_tasks.py` — `NewsTasks._save_articles` -/

/-- The dedup filter of `_save_articles`: `existing_ids` is built without a
truthiness filter, so `None` ids of existing articles do participate. -/
def saveKeepIncoming (existing : List Article) (a : Article) : Bool :=
  ¬ (existing.map (·.id)).contains a.id

/-- `NewsTasks._save_articles`: drop incoming articles whose id is already
stored, and if anything new remains, append, stable-sort descending by
`published_date` (missing → `''`) and keep the newest 1000.  Returns `none`
when no new article arrived (nothing is persisted in that case). -/
def save_articles_merge (existing incoming : List Article) :
    Option (List Article) :=
  let new_articles := incoming.filter (saveKeepIncoming existing)
  if new_articles = [] then none
  else some ((sortDescBy pubKey strLeB (existing ++ new_articles)).take 1000)

/-- The full sorted list before truncation (used to name what was dropped). -/
def save_articles_sorted (existing incoming : List Article) : List Article :=
  sortDescBy pubKey strLeB
    (existing ++ incoming.filter (saveKeepIncoming existing))

/-! ### `tasks/news_tasks.py` — `NewsTasks.cleanup_old_data`

The clock and `datetime.fromisoformat` are external; they are passed in as
`now` (a timestamp in seconds) and `parseIso : String → Option Int` (the
parse result in seconds, `none` when parsing raises). -/

/-- The per-article predicate of the cleanup loop: articles with a missing,
empty or unparseable `published_date` are kept; dated ones are kept iff
strictly newer than `now - 30 days` (2592000 seconds). -/
def cleanupKeep (parseIso : String → Option Int) (now : Int) (a : Article) :
    Bool :=
  match a.published_date with
  | none => true
  | some s =>
    if s = "" then true
    else
      match parseIso s with
      | none => true
      | some t => decide (t > now - 2592000)

/-- `NewsTasks.cleanup_old_data`: filter out articles older than 30 days,
then drop every summary whose `article_id` is not among the surviving
articles' ids (the id set is built from `article.get('id')`, so a summary key
never matches a `None` id). -/
def cleanup_old_data (parseIso : String → Option Int) (now : Int)
    (articles : List Article) (summaries : List (String × String)) :
    List Article × List (String × String) :=
  let filtered_articles := articles.filter (cleanupKeep parseIso now)
  let filtered_summaries := summaries.filter
    (fun p => (filtered_articles.map (·.id)).contains (some p.1))
  (filtered_articles, filtered_summaries)

/-! ### `services/news_processor.py` — keyword/LLM categorization -/

/-- Python's substring test `needle in hay` on character lists. -/
def substrB (needle hay : List Char) : Bool :=
  if needle.isPrefixOf hay then true
  else
    match hay with
    | [] => false
    | _ :: t => substrB needle t

/-- The fixed keyword table of `NewsProcessor.__init__` (insertion order as
in the source; note `'startup'` occurs under both technology and business). -/
def keywordTable : List (String × List String) :=
  [("technology", ["ai", "artificial intelligence", "machine learning",
      "tech", "software", "hardware", "startup", "innovation"]),
   ("business", ["business", "finance", "economy", "market", "investment",
      "company", "corporate", "startup"]),
   ("science", ["science", "research", "study", "discovery", "scientific",
      "experiment", "laboratory"]),
   ("politics", ["politics", "government", "election", "policy", "political",
      "congress", "senate", "president"]),
   ("entertainment", ["movie", "film", "music", "celebrity", "entertainment",
      "hollywood", "streaming"]),
   ("sports", ["sports", "football", "basketball", "baseball", "soccer",
      "athlete", "game", "championship"]),
   ("health", ["health", "medical", "medicine", "disease", "treatment",
      "hospital", "doctor", "patient"]),
   ("environment", ["environment", "climate", "weather", "pollution",
      "sustainability", "green", "renewable"])]

/-- Number of keywords of one category found in the (lowercased) content. -/
def kwCount (content : String) (kws : List String) : Nat :=
  kws.countP (fun k => substrB k.data content.data)

/-- The `category_scores` dict built over an arbitrary keyword table:
categories with a positive score, in table order. -/
def scoresOf (tbl : List (String × List String)) (content : String) :
    List (String × Nat) :=
  tbl.filterMap (fun p =>
    let s := kwCount content p.2
    if s > 0 then some (p.1, s) else none)

/-- The `category_scores` dict of `_keyword_categorization`: categories with
a positive score, in table order. -/
def categoryScores (content : String) : List (String × Nat) :=
  scoresOf keywordTable content

/-- `max(category_scores, key=category_scores.get)`: the first key holding
the maximal value (a strictly greater value displaces the current best). -/
def maxKeyGo (c : String) (s : Nat) : List (String × Nat) → String
  | [] => c
  | q :: r => if q.2 > s then maxKeyGo q.1 q.2 r else maxKeyGo c s r

/-- `max` over the score dict, `None` when no keyword matched at all. -/
def maxKey : List (String × Nat) → Option String
  | [] => none
  | q :: r => some (maxKeyGo q.1 q.2 r)

/-- `NewsProcessor._keyword_categorization`. -/
def keyword_categorization (content : String) : Option String :=
  maxKey (categoryScores content)

/-- `NewsProcessor._is_keyword_confident`: at least 2 keyword matches. -/
def is_keyword_confident (content category : String) : Bool :=
  match alookup keywordTable category with
  | none => false
  | some kws => kwCount content kws ≥ 2

/-- Python's `keyword_category or 'other'`. -/
def orOther : Option String → String
  | none => "other"
  | some s => if s = "" then "other" else s

/-- `NewsProcessor._categorize_article` on the lowercased
`f"{title} {description}"` content.  The LLM call is external: `llm = none`
models an exception or a `None` return, `some s` a returned string (which the
code only uses when truthy).  The boolean records whether the LLM path ran. -/
def categorize_article (llm : Option String) (content : String) :
    String × Bool :=
  let kc? := keyword_categorization content
  let llmPath : String × Bool :=
    match llm with
    | some ai => if ai = "" then (orOther kc?, true) else (ai, true)
    | none => (orOther kc?, true)
  match kc? with
  | some kc =>
    if kc = "" then llmPath
    else if is_keyword_confident content kc then (kc, false)
    else llmPath
  | none => llmPath

/-! ### `services/llm.py` — `SimpleLLMConnector.rank_articles` -/

/-- The per-article details the ranking code reads and annotates. -/
structure RDetails where
  summary : String
  source : String
  published_at : String
  link : String
  judge_score : Option Int := none
  judge_reason : Option String := none
  deriving DecidableEq, Repr

instance : Inhabited RDetails := ⟨⟨"", "", "", "", none, none⟩⟩

/-- Writing the judge annotations into a details record. -/
def setJudge (d : RDetails) (s : Int) (r : String) : RDetails :=
  { d with judge_score := some s, judge_reason := some r }

/-- One entry of the model's parsed `"ranked"` array that is a JSON object;
`title` is `none` when the object has no `"title"` key. -/
structure JItem where
  title : Option String
  score : Int
  reason : String
  deriving DecidableEq, Repr

/-- `rank_map[title] = {...}`: ordered-dict insert (an existing key keeps its
position and gets the new value; a new key is appended). -/
def dictInsert (m : List (String × Int × String)) (t : String)
    (v : Int × String) : List (String × Int × String) :=
  if (m.map Prod.fst).contains t then
    m.map (fun p => if p.1 = t then (t, v) else p)
  else m ++ [(t, v)]

/-- The loop over `parsed["ranked"]` with the `rank_map` accumulator: skip
non-dict entries (`none`) and entries whose title is absent or not an input
key; record the rest. -/
def buildRankMapGo (keys : List String) (m : List (String × Int × String)) :
    List (Option JItem) → List (String × Int × String)
  | [] => m
  | it? :: rest =>
    match it? with
    | none => buildRankMapGo keys m rest
    | some it =>
      match it.title with
      | none => buildRankMapGo keys m rest
      | some t =>
        buildRankMapGo keys
          (if keys.contains t then dictInsert m t (it.score, it.reason) else m)
          rest

/-- The `rank_map` built from the model's `"ranked"` list. -/
def buildRankMap (keys : List String) (items : List (Option JItem)) :
    List (String × Int × String) :=
  buildRankMapGo keys [] items

/-- `rank_map[title]` (the default is unreachable at every use site). -/
def rmGet (m : List (String × Int × String)) (t : String) : Int × String :=
  (alookup m t).getD (5, "Relevant update worth tracking")

/-- The loop appending every input title the model omitted, with the neutral
default score 5 and generic reason. -/
def appendMissing :
    List String → List (String × Int × String) → List String →
    List (String × Int × String) × List String
  | [], m, rts => (m, rts)
  | t :: ks, m, rts =>
    if (m.map Prod.fst).contains t then appendMissing ks m rts
    else
      appendMissing ks (m ++ [(t, (5, "Relevant update worth tracking"))])
        (rts ++ [t])

/-- `score_item` of `SimpleLLMConnector._heuristic_sort`: a recency score
(10 minus age-in-hours over 12, floored at 0; 0 when the date fails to
parse) plus summary length capped at 300, over 100. -/
def heuristicScore (parseIso : String → Option ℚ) (now : ℚ) (d : RDetails) :
    ℚ :=
  let summary_score : ℚ := ((min d.summary.length 300 : ℕ) : ℚ) / 100
  let date_score : ℚ :=
    match parseIso d.published_at with
    | none => 0
    | some t => max 0 (10 - max ((now - t) / 3600) 0 / 12)
  date_score + summary_score

/-- `SimpleLLMConnector._heuristic_sort`: stable descending sort of the
articles dict's items by `score_item`. -/
def heuristic_sort (parseIso : String → Option ℚ) (now : ℚ)
    (input : List (String × RDetails)) : List (String × RDetails) :=
  sortDescBy (fun p => heuristicScore parseIso now p.2) ratLeB input

/-- Python's `if top_n:` truncation (`None` and `0` are falsy). -/
def truncTopN (top_n : Option Nat) (l : List String) : List String :=
  match top_n with
  | none => l
  | some k => if k = 0 then l else l.take k

/-- Truncation of the fallback path's item list. -/
def truncTopNItems (top_n : Option Nat) (l : List (String × RDetails)) :
    List (String × RDetails) :=
  match top_n with
  | none => l
  | some k => if k = 0 then l else l.take k

/-- `original_titles = list(articles_dict.keys())`. -/
def rankKeys (input : List (String × RDetails)) : List String :=
  input.map Prod.fst

/-- The `rank_map` after the parsing loop. -/
def rankM0 (input : List (String × RDetails)) (items : List (Option JItem)) :
    List (String × Int × String) :=
  buildRankMap (rankKeys input) items

/-- `ranked_titles = sorted(rank_map.keys(), key=..., reverse=True)`. -/
def rankRts0 (input : List (String × RDetails))
    (items : List (Option JItem)) : List String :=
  sortDescBy (fun t => (rmGet (rankM0 input items) t).1) intLeB
    ((rankM0 input items).map Prod.fst)

/-- `rank_map` and `ranked_titles` after appending the omitted titles. -/
def rankMr (input : List (String × RDetails)) (items : List (Option JItem)) :
    List (String × Int × String) × List String :=
  appendMissing (rankKeys input) (rankM0 input items) (rankRts0 input items)

/-- The success path of `rank_articles`: build `rank_map` from the parsed
response, order the judged titles by descending score (stable), append the
omitted input titles with the neutral default, truncate by `top_n`, and
annotate the input details with the judge fields. -/
def rank_success (input : List (String × RDetails))
    (items : List (Option JItem)) (top_n : Option Nat) :
    List (String × RDetails) :=
  (truncTopN top_n (rankMr input items).2).map (fun t =>
    (t, setJudge ((alookup input t).getD default)
      (rmGet (rankMr input items).1 t).1 (rmGet (rankMr input items).1 t).2))

/-- The failure path of `rank_articles`: heuristic sort, truncation, and the
constant judge score 5 with the fixed fallback reason. -/
def rank_fallback (parseIso : String → Option ℚ) (now : ℚ)
    (input : List (String × RDetails)) (top_n : Option Nat) :
    List (String × RDetails) :=
  (truncTopNItems top_n (heuristic_sort parseIso now input)).map (fun p =>
    (p.1, setJudge p.2 5 "Prioritized by recency and content richness"))

/-- `SimpleLLMConnector.rank_articles`.  `llm = some items` models a model
response that parsed to a JSON object with a `"ranked"` list; `llm = none`
models every failure (model unreachable, unparseable output, wrong schema,
non-integer score), which falls back to `_heuristic_sort`. -/
def rank_articles (parseIso : String → Option ℚ) (now : ℚ)
    (input : List (String × RDetails)) (llm : Option (List (Option JItem)))
    (top_n : Option Nat) : List (String × RDetails) :=
  if input = [] then []
  else
    match llm with
    | some items => rank_success input items top_n
    | none => rank_fallback parseIso now input top_n

/-! ### `bot.py` — `_send_long_message` (the Digest Presenter)

Text is modelled as `List Char`; the limit is the `TELEGRAM_MESSAGE_LIMIT`
constant (4000 in the source) kept as a parameter. -/

/-- Whitespace as stripped by Python's `str.strip()`. -/
def isWS (c : Char) : Bool :=
  c = ' ' ∨ c = '\t' ∨ c = '\n' ∨ c = '\r' ∨ c = '\x0b' ∨ c = '\x0c'

/-- Python `str.strip()`. -/
def stripWS (l : List Char) : List Char :=
  ((l.dropWhile isWS).reverse.dropWhile isWS).reverse

/-- Index of the first occurrence of the separator `"\n\n"`. -/
def findSep : List Char → Option Nat
  | [] => none
  | [_] => none
  | a :: b :: r =>
    if a = '\n' ∧ b = '\n' then some 0
    else (findSep (b :: r)).map (· + 1)

/-- Python `text.split("\n\n")` (greedy, non-overlapping, left to right);
fuelled by the text length, which bounds the number of splits. -/
def splitNNGo : Nat → List Char → List (List Char)
  | 0, l => [l]
  | fuel + 1, l =>
    match findSep l with
    | none => [l]
    | some i => l.take i :: splitNNGo fuel (l.drop (i + 2))

/-- `text.split("\n\n")`. -/
def splitNN (l : List Char) : List (List Char) :=
  splitNNGo l.length l

/-- The hard split `paragraph[i:i+LIMIT]` loop for a single over-long
paragraph; fuelled by the paragraph length. -/
def hardSplitGo (limit : Nat) : Nat → List Char → List (List Char)
  | 0, _ => []
  | _, [] => []
  | fuel + 1, c :: rest =>
    (c :: rest).take limit :: hardSplitGo limit fuel ((c :: rest).drop limit)

/-- All `LIMIT`-sized slices of one paragraph. -/
def hardSplit (limit : Nat) (l : List Char) : List (List Char) :=
  hardSplitGo limit l.length l

/-- The paragraph-packing loop of `_send_long_message`; returns the chunks in
the order they are sent. -/
def sendLoop (limit : Nat) :
    List (List Char) → List Char → List (List Char) → List (List Char)
  | [], current, acc => if current = [] then acc else acc ++ [current]
  | p :: ps, current, acc =>
    let candidate :=
      if current = [] then p else stripWS (current ++ '\n' :: '\n' :: p)
    if candidate.length > limit then
      if current = [] then sendLoop limit ps [] (acc ++ hardSplit limit p)
      else sendLoop limit ps p (acc ++ [current])
    else sendLoop limit ps candidate acc

/-- `_send_long_message`: a short text goes out as one message; a long one is
split on paragraph boundaries, packing greedily up to the limit. -/
def send_long_message (limit : Nat) (text : List Char) : List (List Char) :=
  if text.length ≤ limit then [text]
  else sendLoop limit (splitNN text) [] []

/-! ### `tasks/scheduler.py` — `TaskScheduler._execute_task` -/

/-- A `ScheduledTask` record (timestamps in minutes, as the intervals are). -/
structure STask where
  interval_minutes : Option Nat
  next_run : Int
  last_run : Option Int
  run_count : Nat
  deriving DecidableEq, Repr

/-- Python's `if task_info['interval_minutes']:` — `None` and `0` are falsy. -/
def truthyInterval : Option Nat → Bool
  | none => false
  | some n => n ≠ 0

/-- `TaskScheduler._execute_task` as a transformer of the task's slot in the
task set: `none` means the task was deleted.  `startT` is the clock when the
callable is invoked (stored into `last_run` before the call), `endT` the
clock when the next run is computed, and `ok` whether the callable returned
without raising. -/
def execute_task (startT endT : Int) (ok : Bool) (t : STask) : Option STask :=
  let t₁ : STask :=
    { t with last_run := some startT, run_count := t.run_count + 1 }
  if ok then
    if truthyInterval t.interval_minutes then
      some { t₁ with next_run := endT + (t.interval_minutes.getD 0 : Nat) }
    else none
  else
    if truthyInterval t.interval_minutes then
      some { t₁ with next_run := endT + (t.interval_minutes.getD 0 : Nat) }
    else some t₁

/-! ### `utils/storage.py` — load/save with default-on-failure

File I/O is external; a read is modelled by its outcome (file missing, I/O
error, or parsed content) and a write by whether the underlying `open`/`dump`
raised.  The `try` body is an `Except`; the wrapper catches it. -/

/-- Outcome of opening and parsing a JSON data file. -/
inductive ReadOutcome (α : Type) where
  | missing : ReadOutcome α
  | ioError : ReadOutcome α
  | ok : α → ReadOutcome α
  deriving DecidableEq, Repr

/-- Outcome of a file write. -/
inductive WriteOutcome where
  | ok : WriteOutcome
  | ioError : WriteOutcome
  deriving DecidableEq, Repr

/-- The `articles.json` payload. -/
structure ArticlesData where
  articles : List Article
  last_updated : Option String
  total_articles : Nat
  deriving DecidableEq, Repr

/-- The default returned when `articles.json` is absent or unreadable. -/
def emptyArticlesData : ArticlesData := ⟨[], none, 0⟩

/-- The `try` body of `load_articles`: a missing file returns the default
normally; an I/O error raises. -/
def load_articles_body (fs : ReadOutcome ArticlesData) :
    Except String ArticlesData :=
  match fs with
  | .missing => .ok emptyArticlesData
  | .ioError => .error "read failed"
  | .ok d => .ok d

/-- `load_articles`: the surrounding `except` substitutes the default. -/
def load_articles (fs : ReadOutcome ArticlesData) : ArticlesData :=
  match load_articles_body fs with
  | .ok d => d
  | .error _ => emptyArticlesData

/-- The `try` body of `load_summaries` (`data.get('summaries', {})`). -/
def load_summaries_body (fs : ReadOutcome (List (String × String))) :
    Except String (List (String × String)) :=
  match fs with
  | .missing => .ok []
  | .ioError => .error "read failed"
  | .ok d => .ok d

/-- `load_summaries`: the surrounding `except` substitutes the empty map. -/
def load_summaries (fs : ReadOutcome (List (String × String))) :
    List (String × String) :=
  match load_summaries_body fs with
  | .ok d => d
  | .error _ => []

/-- The `try` body of `load_all_users` (`data.get('users', {})`). -/
def load_all_users_body (fs : ReadOutcome (List (String × String))) :
    Except String (List (String × String)) :=
  match fs with
  | .missing => .ok []
  | .ioError => .error "read failed"
  | .ok d => .ok d

/-- `load_all_users`: the surrounding `except` substitutes the empty map. -/
def load_all_users (fs : ReadOutcome (List (String × String))) :
    List (String × String) :=
  match load_all_users_body fs with
  | .ok d => d
  | .error _ => []

/-- `save_articles`: on a write failure the handler logs and re-raises; the
boolean records that the error was logged. -/
def save_articles (w : WriteOutcome) (_arts : List Article) :
    Except String Unit × Bool :=
  match w with
  | .ok => (.ok (), false)
  | .ioError => (.error "write failed", true)

/-- `save_summaries`: same logged re-raise discipline as `save_articles`. -/
def save_summaries (w : WriteOutcome) (_sums : List (String × String)) :
    Except String Unit × Bool :=
  match w with
  | .ok => (.ok (), false)
  | .ioError => (.error "write failed", true)

/-! ### `bot.py` — `_format_published_at` and the article message -/

/-- `_format_published_at`: the body is only `if not raw_published_at:
return ""`; its date-formatting `try` block sits unreachably inside
`_get_cooldown_remaining` after a `return`, so a non-empty input falls off
the end of the function and yields Python `None` (`Option.none` here). -/
def format_published_at (raw : String) : Option String :=
  if raw = "" then some "" else none

/-- Truthiness of the `published_at` value tested by `if published_at:`. -/
def truthyStr : Option String → Bool
  | none => false
  | some s => s ≠ ""

/-- The article message assembled by `get_today_news_cmd` for one story
(fields already passed through `_clean_text`). -/
def buildArticleMessage (i maxItems : Nat) (title : String)
    (judge_score : Int) (judge_reason source : String) (rawPublished : String)
    (summary link : String) : String :=
  let published_at := format_published_at rawPublished
  let msg := "Story " ++ toString i ++ "/" ++ toString maxItems ++ "\n" ++
    "Headline: " ++ title ++ "\n" ++
    "Impact score: " ++ toString judge_score ++ "/10\n" ++
    "Judge note: " ++ judge_reason ++ "\n" ++
    "Source: " ++ source ++ "\n"
  let msg := if truthyStr published_at then
      msg ++ "Published: " ++ published_at.getD "" ++ "\n"
    else msg
  let msg := if summary ≠ "" then
      msg ++ "Why it matters: " ++
        (if summary.length > 220 then
          ((summary.data.take 220).asString) ++ "..." else summary) ++ "\n"
    else msg
  if link ≠ "" then msg ++ "Read more: " ++ link ++ "\n" else msg

/-! ### Concrete instances used by witnesses -/

/-- An existing article with id `x`. -/
def artX : Article := ⟨some "x", "A1", some "2024-03"⟩

/-- An incoming article with id `y`. -/
def artY1 : Article := ⟨some "y", "B1", some "2024-02"⟩

/-- A second, distinct incoming article carrying the same id `y`. -/
def artY2 : Article := ⟨some "y", "B2", some "2024-01"⟩

/-- A 45-day-old article (timestamps in seconds, `now = 100 * 86400`). -/
def art45 : Article := ⟨some "a45", "Old story", some "day55"⟩

/-- A 10-day-old article. -/
def art10 : Article := ⟨some "a10", "Fresh story", some "day90"⟩

/-- The ISO parser restricted to the two dates of the cleanup scenario. -/
def demoParse (s : String) : Option Int :=
  if s = "day55" then some (55 * 86400)
  else if s = "day90" then some (90 * 86400)
  else none

/-- Details of the ranking witness's first article. -/
def detA : RDetails := ⟨"summary about A", "srcA", "", "linkA", none, none⟩

/-- Details of the ranking witness's second article. -/
def detB : RDetails := ⟨"summary about B", "srcB", "", "linkB", none, none⟩

/-- A parsed model response that judges only title `b`, contains one
non-object entry, and one unknown title. -/
def demoItems : List (Option JItem) :=
  [some ⟨some "b", 9, "big impact"⟩, none,
   some ⟨some "nope", 3, "unknown title"⟩]

/-! ## Lemmas about the stable descending sort -/

theorem sortDescBy_perm {α β : Type} (key : α → β) (leB : β → β → Bool)
    (l : List α) : (sortDescBy key leB l).Perm l :=
  List.perm_insertionSort _ l

theorem sortDescBy_mem {α β : Type} (key : α → β) (leB : β → β → Bool)
    {l : List α} {a : α} : a ∈ sortDescBy key leB l ↔ a ∈ l :=
  (sortDescBy_perm key leB l).mem_iff

theorem sortDescBy_pairwise {α β : Type} (key : α → β) (leB : β → β → Bool)
    (htot : ∀ x y, leB x y = true ∨ leB y x = true)
    (htrans : ∀ x y z, leB x y = true → leB y z = true → leB x z = true)
    (l : List α) :
    (sortDescBy key leB l).Pairwise (fun a b => leB (key b) (key a) = true) := by
  haveI : IsTotal α (fun a b => leB (key b) (key a) = true) :=
    ⟨fun a b => htot (key b) (key a)⟩
  haveI : IsTrans α (fun a b => leB (key b) (key a) = true) :=
    ⟨fun a b c h₁ h₂ => htrans _ _ _ h₂ h₁⟩
  exact List.sorted_insertionSort _ l

theorem strLeB_total (x y : List Char) :
    strLeB x y = true ∨ strLeB y x = true := by
  induction x generalizing y with
  | nil => left; rfl
  | cons a as ih =>
    cases y with
    | nil => right; rfl
    | cons b bs =>
      by_cases hab : a = b
      · subst hab
        simpa [strLeB] using ih bs
      · rcases lt_or_gt_of_ne hab with h | h
        · left; simp [strLeB, hab, h]
        · right; simp [strLeB, Ne.symm hab, not_lt_of_gt h, h]

theorem strLeB_trans (x y z : List Char) (h₁ : strLeB x y = true)
    (h₂ : strLeB y z = true) : strLeB x z = true := by
  induction x generalizing y z with
  | nil => rfl
  | cons a as ih =>
    cases y with
    | nil => simp [strLeB] at h₁
    | cons b bs =>
      cases z with
      | nil => simp [strLeB] at h₂
      | cons c cs =>
        by_cases hab : a = b <;> by_cases hbc : b = c
        · subst hab; subst hbc
          simp only [strLeB, if_pos rfl] at h₁ h₂ ⊢
          exact ih bs cs h₁ h₂
        · subst hab
          simp only [strLeB, if_pos rfl] at h₁
          simp only [strLeB, if_neg hbc, decide_eq_true_iff] at h₂
          simp [strLeB, hbc, h₂]
        · subst hbc
          simp only [strLeB, if_neg hab, decide_eq_true_iff] at h₁
          simp [strLeB, hab, h₁]
        · simp only [strLeB, if_neg hab, decide_eq_true_iff] at h₁
          simp only [strLeB, if_neg hbc, decide_eq_true_iff] at h₂
          have hac : a < c := lt_trans h₁ h₂
          simp [strLeB, ne_of_lt hac, hac]

theorem intLeB_total (x y : Int) : intLeB x y = true ∨ intLeB y x = true := by
  simp only [intLeB, decide_eq_true_iff]
  exact le_total x y

theorem intLeB_trans (x y z : Int) (h₁ : intLeB x y = true)
    (h₂ : intLeB y z = true) : intLeB x z = true := by
  simp only [intLeB, decide_eq_true_iff] at h₁ h₂ ⊢
  exact le_trans h₁ h₂

theorem ratLeB_total (x y : ℚ) : ratLeB x y = true ∨ ratLeB y x = true := by
  simp only [ratLeB, decide_eq_true_iff]
  exact le_total x y

theorem ratLeB_trans (x y z : ℚ) (h₁ : ratLeB x y = true)
    (h₂ : ratLeB y z = true) : ratLeB x z = true := by
  simp only [ratLeB, decide_eq_true_iff] at h₁ h₂ ⊢
  exact le_trans h₁ h₂

theorem pairwise_take_drop {α : Type} {R : α → α → Prop} {l : List α}
    (h : l.Pairwise R) (n : Nat) :
    ∀ a ∈ l.take n, ∀ b ∈ l.drop n, R a b := by
  have h' : (l.take n ++ l.drop n).Pairwise R := by
    rwa [List.take_append_drop]
  exact (List.pairwise_append.mp h').2.2

/-! ## Claim C7 — scheduler execution bookkeeping -/

/-- Claim C7, counterexample: a one-shot task (null interval) whose callable
raises is NOT removed from the task set — `_execute_task` only deletes it in
the success branch — and its `next_run` is left unchanged (here 3), so the
claim as stated is false at this input. -/
theorem c7_counterexample :
    execute_task 5 6 false ⟨none, 3, none, 0⟩ = some ⟨none, 3, some 5, 1⟩ ∧
      execute_task 5 6 false ⟨none, 3, none, 0⟩ ≠ none := by
  constructor
  · rfl
  · intro h
    simp [execute_task, truthyInterval] at h

/-- Claim C7, amended: after an execution attempt, a task with a truthy
(non-null, nonzero) interval always has `next_run` advanced to the completion
time plus the interval, success or failure; a task with a falsy interval is
removed on success, but on an exception it is kept with `last_run` and
`run_count` updated and `next_run` unchanged. -/
theorem c7_execute_task_amended (startT endT : Int) (ok : Bool) (t : STask) :
    (ok = true → truthyInterval t.interval_minutes = false →
      execute_task startT endT ok t = none) ∧
    (∀ n, t.interval_minutes = some n → n ≠ 0 →
      execute_task startT endT ok t =
        some ⟨some n, endT + (n : Int), some startT, t.run_count + 1⟩) ∧
    (ok = false → truthyInterval t.interval_minutes = false →
      execute_task startT endT ok t =
        some ⟨t.interval_minutes, t.next_run, some startT, t.run_count + 1⟩) := by
  refine ⟨?_, ?_, ?_⟩
  · intro hok hfalsy
    subst hok
    simp [execute_task, hfalsy]
  · intro n hn hnz
    have htruthy : truthyInterval (some n) = true := by
      simp [truthyInterval, hnz]
    cases ok <;> simp [execute_task, hn, htruthy]
  · intro hok hfalsy
    subst hok
    simp [execute_task, hfalsy]

/-- Claim C7, witness: the amended theorem applied to a concrete recurring
task that fails (rescheduled to `2 + 3`) and a concrete one-shot success. -/
theorem c7_witness :
    execute_task 1 2 false ⟨some 3, 0, none, 4⟩ =
      some ⟨some 3, 5, some 1, 5⟩ ∧
    execute_task 1 2 true ⟨none, 0, none, 4⟩ = none := by
  constructor
  · have h := (c7_execute_task_amended 1 2 false ⟨some 3, 0, none, 4⟩).2.1
      3 rfl (by decide)
    simpa using h
  · exact (c7_execute_task_amended 1 2 true ⟨none, 0, none, 4⟩).1 rfl (by decide)

/-! ## Claim C9 — storage reads default, writes re-raise -/

/-- Claim C9: every read of a persisted collection yields the empty/default
collection on a missing file or a failed read (and, being total functions,
the loaders never raise); a failed write of articles or summaries is logged
and re-raised to the caller. -/
theorem c9_storage_error_handling :
    (∀ fs : ReadOutcome ArticlesData, fs = .missing ∨ fs = .ioError →
      load_articles fs = emptyArticlesData) ∧
    (∀ fs : ReadOutcome (List (String × String)),
      fs = .missing ∨ fs = .ioError → load_summaries fs = []) ∧
    (∀ fs : ReadOutcome (List (String × String)),
      fs = .missing ∨ fs = .ioError → load_all_users fs = []) ∧
    (∀ arts, (save_articles .ioError arts).1 = .error "write failed" ∧
      (save_articles .ioError arts).2 = true) ∧
    (∀ sums, (save_summaries .ioError sums).1 = .error "write failed" ∧
      (save_summaries .ioError sums).2 = true) := by
  refine ⟨?_, ?_, ?_, ?_, ?_⟩
  · rintro fs (rfl | rfl) <;> rfl
  · rintro fs (rfl | rfl) <;> rfl
  · rintro fs (rfl | rfl) <;> rfl
  · intro arts; exact ⟨rfl, rfl⟩
  · intro sums; exact ⟨rfl, rfl⟩

/-- Claim C9, witness: the loaders at the two failure outcomes and a failing
write of one concrete article list. -/
theorem c9_witness :
    load_articles .missing = emptyArticlesData ∧
    load_articles .ioError = emptyArticlesData ∧
    load_summaries .missing = [] ∧
    load_all_users .ioError = [] ∧
    (save_articles .ioError [art10]).1 = .error "write failed" := by
  refine ⟨?_, ?_, ?_, ?_, ?_⟩
  · exact c9_storage_error_handling.1 _ (Or.inl rfl)
  · exact c9_storage_error_handling.1 _ (Or.inr rfl)
  · exact c9_storage_error_handling.2.1 _ (Or.inl rfl)
  · exact c9_storage_error_handling.2.2.1 _ (Or.inr rfl)
  · exact (c9_storage_error_handling.2.2.2.1 [art10]).1

/-! ## Claim C10 — the dead `Published:` line -/

/-- Claim C10: `_format_published_at` returns `None` for every non-empty
input (its date-formatting branch is dead code stranded inside
`_get_cooldown_remaining`), its result is never truthy, and therefore the
article message of `get_today_news_cmd` is independent of the article's raw
`published_at` — the `Published:` line is never emitted. -/
theorem c10_published_line_never_shown :
    (∀ raw : String, raw ≠ "" → format_published_at raw = none) ∧
    (∀ raw : String, truthyStr (format_published_at raw) = false) ∧
    (∀ (i maxItems : Nat) (title : String) (sc : Int)
      (rs src raw raw' summ lk : String),
      buildArticleMessage i maxItems title sc rs src raw summ lk =
        buildArticleMessage i maxItems title sc rs src raw' summ lk) := by
  have h2 : ∀ raw : String, truthyStr (format_published_at raw) = false := by
    intro raw
    by_cases h : raw = ""
    · simp [format_published_at, h, truthyStr]
    · simp [format_published_at, h, truthyStr]
  refine ⟨?_, h2, ?_⟩
  · intro raw h
    simp [format_published_at, h]
  · intro i maxItems title sc rs src raw raw' summ lk
    simp [buildArticleMessage, h2]

/-- Claim C10, witness: a valid ISO date still formats to `None`, and the
message built with it equals the message built with an empty date. -/
theorem c10_witness :
    format_published_at "2024-01-05T10:00:00" = none ∧
    buildArticleMessage 1 2 "T" 7 "r" "s" "2024-01-05T10:00:00" "sum" "l" =
      buildArticleMessage 1 2 "T" 7 "r" "s" "" "sum" "l" := by
  constructor
  · exact c10_published_line_never_shown.1 _ (by decide)
  · exact c10_published_line_never_shown.2.2 1 2 "T" 7 "r" "s"
      "2024-01-05T10:00:00" "" "sum" "l"

/-! ## Claim C8 — cleanup of old articles and orphaned summaries -/

/-- Claim C8: `cleanup_old_data` keeps exactly the articles passing the
30-day retention predicate and exactly the summaries whose article id still
occurs among the survivors; in the spec's scenario (a 45-day-old and a
10-day-old article, each with a stored summary, at `now = 100 * 86400`
seconds) only the 10-day-old article and its summary survive. -/
theorem c8_cleanup_old_data :
    (∀ (parseIso : String → Option Int) (now : Int) (articles : List Article)
      (summaries : List (String × String)),
      (∀ a, a ∈ (cleanup_old_data parseIso now articles summaries).1 ↔
        a ∈ articles ∧ cleanupKeep parseIso now a = true) ∧
      (∀ p, p ∈ (cleanup_old_data parseIso now articles summaries).2 ↔
        p ∈ summaries ∧
          ((cleanup_old_data parseIso now articles summaries).1.map
            (·.id)).contains (some p.1) = true)) ∧
    cleanup_old_data demoParse (100 * 86400) [art45, art10]
      [("a45", "s45"), ("a10", "s10")] = ([art10], [("a10", "s10")]) := by
  constructor
  · intro parseIso now articles summaries
    constructor
    · intro a
      simp [cleanup_old_data, List.mem_filter]
    · intro p
      simp [cleanup_old_data, List.mem_filter]
  · decide

/-! ## Claim C4 — the message chunker (code bug) -/

/-- Claim C4 fails on the code: with limit 5 and text `"a\n\nbcdefg"`, the
over-long paragraph `"bcdefg"` follows a non-empty pending chunk, so
`_send_long_message` emits it whole (6 > 5 characters) instead of
hard-splitting it; and with text `"ab\n\ncd\n\n"` the emitted chunks joined
with the separator reinserted give back `"ab\n\ncd"`, not the original (the
trailing separator is lost to `strip()`), refuting the round-trip. -/
theorem c4_chunker_violations :
    send_long_message 5 ('a' :: '\n' :: '\n' :: "bcdefg".data) =
      [['a'], "bcdefg".data] ∧
    (∃ c ∈ send_long_message 5 ('a' :: '\n' :: '\n' :: "bcdefg".data),
      5 < c.length) ∧
    send_long_message 5 "ab\n\ncd\n\n".data = ["ab".data, "cd".data] ∧
    List.intercalate ['\n', '\n'] (send_long_message 5 "ab\n\ncd\n\n".data) ≠
      "ab\n\ncd\n\n".data := by
  refine ⟨by decide, ⟨"bcdefg".data, by decide, by decide⟩, by decide, by decide⟩

/-! ## Claim C2 — `merge_articles` dedup -/

/-- On articles whose ids are all truthy, the dedup filter of
`merge_articles` is exactly "my id is not among the existing ids". -/
theorem mergeKeepIncoming_of_truthy {A : List Article} {b : Article}
    (_hA : ∀ a ∈ A, truthyId a.id = true) (hb : truthyId b.id = true) :
    mergeKeepIncoming A b = !((A.map (·.id)).contains b.id) := by
  match hid : b.id with
  | none => simp [truthyId, hid] at hb
  | some s =>
    have hs : s ≠ "" := by simpa [truthyId, hid] using hb
    have hmem : (existingTruthyIds A).contains s =
        (A.map (·.id)).contains (some s) := by
      by_cases h : some s ∈ A.map (·.id)
      · have hsome : s ∈ existingTruthyIds A := by
          rcases List.mem_map.mp h with ⟨a, haA, hid'⟩
          refine List.mem_filterMap.mpr ⟨a, haA, ?_⟩
          have hs' : s ≠ "" := hs
          match hida : a.id with
          | none => simp [hida] at hid'
          | some s' =>
            have : s' = s := by simpa [hida] using hid'
            subst this
            simp [hida, hs']
        simp [hsome, h]
      · have hnone : s ∉ existingTruthyIds A := by
          intro hsome
          rcases List.mem_filterMap.mp hsome with ⟨a, haA, hfa⟩
          apply h
          refine List.mem_map.mpr ⟨a, haA, ?_⟩
          match hida : a.id with
          | none => simp [hida] at hfa
          | some s' =>
            simp only [hida] at hfa
            split at hfa
            · exact absurd hfa (by simp)
            · simpa [hida] using congrArg some (Option.some.inj hfa)
        have h1 : (existingTruthyIds A).contains s = false := by
          simpa using hnone
        have h2 : ((A.map (·.id)).contains (some s)) = false := by
          simpa using h
        rw [h1, h2]
    simp only [mergeKeepIncoming, hid, hmem]
    cases (A.map (·.id)).contains (some s) <;> simp

/-- Claim C2, counterexample: with one existing article of id `x` and two
distinct incoming articles both carrying id `y`, the merged list holds id `y`
twice — `merge_articles` only dedups incoming against existing, never
incoming against incoming — refuting "each identifier occurring exactly
once". -/
theorem c2_counterexample :
    (merge_articles [artX] [artY1, artY2]).map (·.id) =
      [some "x", some "y", some "y"] ∧
    ¬ ((merge_articles [artX] [artY1, artY2]).map (·.id)).Nodup := by
  constructor
  · decide
  · decide

/-- Claim C2, amended: PROVIDED every article of either batch has a non-empty
identifier and identifiers are pairwise distinct within each batch,
`merge_articles A B` is a permutation of `A` plus those `B`-articles whose id
is not in `A` (first-seen wins), its identifiers are pairwise distinct and
form exactly the union of the two batches' identifiers, and every `A`-entry
survives. -/
theorem c2_merge_articles_amended (A B : List Article)
    (hA : ∀ a ∈ A, truthyId a.id = true)
    (hB : ∀ b ∈ B, truthyId b.id = true)
    (hAnd : (A.map (·.id)).Nodup) (hBnd : (B.map (·.id)).Nodup) :
    (merge_articles A B).Perm
      (A ++ B.filter (fun b => !((A.map (·.id)).contains b.id))) ∧
    ((merge_articles A B).map (·.id)).Nodup ∧
    (∀ i, i ∈ (merge_articles A B).map (·.id) ↔
      i ∈ A.map (·.id) ∨ i ∈ B.map (·.id)) ∧
    (∀ a ∈ A, a ∈ merge_articles A B) := by
  have hfilter : B.filter (mergeKeepIncoming A) =
      B.filter (fun b => !((A.map (·.id)).contains b.id)) := by
    apply List.filter_congr
    intro b hb
    exact mergeKeepIncoming_of_truthy hA (hB b hb)
  have hperm : (merge_articles A B).Perm
      (A ++ B.filter (fun b => !((A.map (·.id)).contains b.id))) := by
    by_cases hAe : A = []
    · subst hAe
      have hm : merge_articles [] B = B := by simp [merge_articles]
      have hf : B.filter
          (fun b => !(([] : List Article).map (·.id)).contains b.id) = B := by
        apply List.filter_eq_self.mpr
        intro b _
        simp
      rw [hm, List.nil_append, hf]
    · by_cases hBe : B = []
      · subst hBe
        simp [merge_articles, hAe]
      · simp only [merge_articles, if_neg hAe, if_neg hBe]
        rw [hfilter]
        exact sortDescBy_perm _ _ _
  refine ⟨hperm, ?_, ?_, ?_⟩
  · have hnd : ((A ++ B.filter
        (fun b => !((A.map (·.id)).contains b.id))).map (·.id)).Nodup := by
      rw [List.map_append]
      refine List.nodup_append.mpr ⟨hAnd, ?_, ?_⟩
      · exact ((List.filter_sublist B).map (·.id)).nodup hBnd
      · intro i hiA hiB
        rcases List.mem_map.mp hiB with ⟨b, hbf, hbi⟩
        have hkeep := (List.mem_filter.mp hbf).2
        rw [hbi] at hkeep
        simp only [Bool.not_eq_true', ← Bool.not_eq_true] at hkeep
        exact absurd (List.elem_iff.mpr hiA) (by simpa using hkeep)
    exact ((hperm.map (·.id)).nodup_iff).mpr hnd
  · intro i
    rw [(hperm.map (·.id)).mem_iff]
    simp only [List.map_append, List.mem_append]
    constructor
    · rintro (h | h)
      · exact Or.inl h
      · rcases List.mem_map.mp h with ⟨b, hbf, hbi⟩
        exact Or.inr (List.mem_map.mpr ⟨b, (List.mem_filter.mp hbf).1, hbi⟩)
    · rintro (h | h)
      · exact Or.inl h
      · by_cases hiA : i ∈ A.map (·.id)
        · exact Or.inl hiA
        · rcases List.mem_map.mp h with ⟨b, hbB, hbi⟩
          refine Or.inr (List.mem_map.mpr ⟨b, List.mem_filter.mpr ⟨hbB, ?_⟩, hbi⟩)
          rw [hbi]
          simpa using fun hc => hiA (List.elem_iff.mp hc)
  · intro a ha
    exact hperm.mem_iff.mpr (List.mem_append.mpr (Or.inl ha))

/-- Claim C2, witness: the amended theorem at one existing and one incoming
article with distinct ids. -/
theorem c2_witness :
    ((merge_articles [artX] [artY1]).map (·.id)).Nodup ∧
    ∀ a ∈ [artX], a ∈ merge_articles [artX] [artY1] := by
  have h := c2_merge_articles_amended [artX] [artY1]
    (by decide) (by decide) (by decide) (by decide)
  exact ⟨h.2.1, h.2.2.2⟩

/-! ## Claim C3 — sort and truncation when persisting -/

/-- Claim C3: whenever `_save_articles` persists (some incoming article was
new), the persisted list is the merged list stable-sorted descending by the
`published_date` key (missing dates sort with the empty-string key, i.e.
last), truncated to at most 1000 entries; everything dropped by the
truncation sorts at-or-below everything kept, so only the oldest (and
null-timestamp) articles are dropped. -/
theorem c3_save_articles_sorted_truncated (existing incoming : List Article)
    (result : List Article)
    (h : save_articles_merge existing incoming = some result) :
    result.Pairwise (fun a b => strLeB (pubKey b) (pubKey a) = true) ∧
    result.length ≤ 1000 ∧
    result = (save_articles_sorted existing incoming).take 1000 ∧
    (∀ a ∈ result, ∀ b ∈ (save_articles_sorted existing incoming).drop 1000,
      strLeB (pubKey b) (pubKey a) = true) ∧
    (result ++ (save_articles_sorted existing incoming).drop 1000).Perm
      (existing ++ incoming.filter (saveKeepIncoming existing)) := by
  have hres : result = (save_articles_sorted existing incoming).take 1000 := by
    simp only [save_articles_merge, save_articles_sorted] at h ⊢
    split at h
    · exact absurd h (by simp)
    · exact (Option.some.inj h).symm
  have hsorted : (save_articles_sorted existing incoming).Pairwise
      (fun a b => strLeB (pubKey b) (pubKey a) = true) :=
    sortDescBy_pairwise pubKey strLeB strLeB_total strLeB_trans _
  refine ⟨?_, ?_, hres, ?_, ?_⟩
  · rw [hres]
    exact hsorted.sublist (List.take_sublist _ _)
  · rw [hres]
    exact (List.length_take _ _).le.trans (min_le_left _ _)
  · rw [hres]
    exact pairwise_take_drop hsorted 1000
  · rw [hres, List.take_append_drop]
    exact sortDescBy_perm _ _ _

/-- Claim C3, witness: the theorem at one existing and one new incoming
article (the persisted result is the two of them, newest first). -/
theorem c3_witness :
    ([artX, artY1] : List Article).Pairwise
      (fun a b => strLeB (pubKey b) (pubKey a) = true) ∧
    ([artX, artY1] : List Article).length ≤ 1000 := by
  have h := c3_save_articles_sorted_truncated [artX] [artY1] [artX, artY1]
    (by decide)
  exact ⟨h.1, h.2.1⟩

/-! ## Claim C5 — categorizer keyword threshold -/

/-- If no category scores a keyword hit, the score dict is empty. -/
theorem scoresOf_eq_nil {tbl : List (String × List String)} {content : String}
    (h : ∀ p ∈ tbl, kwCount content p.2 = 0) : scoresOf tbl content = [] := by
  induction tbl with
  | nil => rfl
  | cons q rest ih =>
    have hq := h q (List.mem_cons_self q rest)
    simp only [scoresOf, List.filterMap_cons, hq]
    exact ih (fun p hp => h p (List.mem_cons_of_mem q hp))

/-- If exactly the category `X` (present once, table keys distinct) scores
`n > 0` hits and every other category scores none, the score dict is the
singleton `[(X, n)]`. -/
theorem scoresOf_eq_single {tbl : List (String × List String)}
    {content X : String} {kwsX : List String} {n : Nat}
    (hnd : (tbl.map Prod.fst).Nodup) (hmem : (X, kwsX) ∈ tbl)
    (hX : kwCount content kwsX = n) (hn : 0 < n)
    (h0 : ∀ p ∈ tbl, p.1 ≠ X → kwCount content p.2 = 0) :
    scoresOf tbl content = [(X, n)] := by
  induction tbl with
  | nil => exact absurd hmem (List.not_mem_nil _)
  | cons q rest ih =>
    rcases List.mem_cons.mp hmem with hq | hrest
    · subst hq
      have hndr := List.nodup_cons.mp
        (show (X :: rest.map Prod.fst).Nodup by
          simpa only [List.map_cons] using hnd)
      have hrest0 : ∀ p ∈ rest, kwCount content p.2 = 0 := by
        intro p hp
        refine h0 p (List.mem_cons_of_mem _ hp) ?_
        intro hpx
        exact absurd (List.mem_map.mpr ⟨p, hp, hpx⟩) hndr.1
      have hnil := scoresOf_eq_nil hrest0
      simp only [scoresOf] at hnil
      simp only [scoresOf, List.filterMap_cons, hX, if_pos hn, hnil]
    · have hq1 : q.1 ≠ X := by
        intro hq1
        have : X ∈ rest.map Prod.fst :=
          List.mem_map.mpr ⟨(X, kwsX), hrest, rfl⟩
        rw [← hq1] at this
        exact (List.nodup_cons.mp (by simpa using hnd)).1 this
      have hq0 : kwCount content q.2 = 0 := h0 q (List.mem_cons_self q rest) hq1
      simp only [scoresOf, List.filterMap_cons, hq0]
      exact ih (by simpa using (List.nodup_cons.mp (by simpa using hnd)).2)
        hrest (fun p hp hpx => h0 p (List.mem_cons_of_mem q hp) hpx)

/-- `alookup` finds the unique entry of a key-distinct association list. -/
theorem alookup_of_mem_nodup {α : Type} {tbl : List (String × α)} {X : String}
    {v : α} (hnd : (tbl.map Prod.fst).Nodup) (hmem : (X, v) ∈ tbl) :
    alookup tbl X = some v := by
  induction tbl with
  | nil => exact absurd hmem (List.not_mem_nil _)
  | cons q rest ih =>
    rcases List.mem_cons.mp hmem with hq | hrest
    · rw [← hq]
      simp [alookup]
    · have hq1 : q.1 ≠ X := by
        intro hq1
        have : X ∈ rest.map Prod.fst := List.mem_map.mpr ⟨(X, v), hrest, rfl⟩
        rw [← hq1] at this
        exact (List.nodup_cons.mp (by simpa using hnd)).1 this
      simp only [alookup, if_neg hq1]
      exact ih (by simpa using (List.nodup_cons.mp (by simpa using hnd)).2) hrest

/-- Claim C5: an article whose content matches exactly 2 keywords of some
category `X` and none of any other category is categorized as `X` with no
LLM call; with exactly 1 match of `X` and none elsewhere the LLM path runs
and a failed (`none`) or empty (`some ""`) LLM response falls back to `X`;
with no keyword match at all and a failed LLM the result is `"other"`. -/
theorem c5_categorize_article_threshold (content X : String)
    (kwsX : List String) (hmem : (X, kwsX) ∈ keywordTable) :
    ((kwCount content kwsX = 2 ∧
        (∀ p ∈ keywordTable, p.1 ≠ X → kwCount content p.2 = 0)) →
      ∀ llm, categorize_article llm content = (X, false)) ∧
    ((kwCount content kwsX = 1 ∧
        (∀ p ∈ keywordTable, p.1 ≠ X → kwCount content p.2 = 0)) →
      categorize_article none content = (X, true) ∧
      categorize_article (some "") content = (X, true)) ∧
    ((∀ p ∈ keywordTable, kwCount content p.2 = 0) →
      categorize_article none content = ("other", true)) := by
  have hnd : (keywordTable.map Prod.fst).Nodup := by decide
  have hXne : X ≠ "" := by
    have hall : ∀ p ∈ keywordTable, p.1 ≠ "" := by decide
    exact hall (X, kwsX) hmem
  have halo : alookup keywordTable X = some kwsX := alookup_of_mem_nodup hnd hmem
  refine ⟨?_, ?_, ?_⟩
  · rintro ⟨h2, h0⟩ llm
    have hsc : categoryScores content = [(X, 2)] := by
      simpa [categoryScores] using
        scoresOf_eq_single hnd hmem h2 (by decide) h0
    have hkc : keyword_categorization content = some X := by
      simp [keyword_categorization, hsc, maxKey, maxKeyGo]
    have hconf : is_keyword_confident content X = true := by
      simp [is_keyword_confident, halo, h2]
    simp [categorize_article, hkc, hXne, hconf]
  · rintro ⟨h1, h0⟩
    have hsc : categoryScores content = [(X, 1)] := by
      simpa [categoryScores] using
        scoresOf_eq_single hnd hmem h1 (by decide) h0
    have hkc : keyword_categorization content = some X := by
      simp [keyword_categorization, hsc, maxKey, maxKeyGo]
    have hconf : is_keyword_confident content X = false := by
      simp [is_keyword_confident, halo, h1]
    constructor <;> simp [categorize_article, hkc, hXne, hconf, orOther]
  · intro h0
    have hkc : keyword_categorization content = none := by
      simp [keyword_categorization, categoryScores, scoresOf_eq_nil h0, maxKey]
    simp [categorize_article, hkc, orOther]

/-- Claim C5, witness: `"election senate"` matches exactly the two politics
keywords `election` and `senate` (LLM skipped even when available);
`"senate"` matches exactly one, so the LLM path runs and `none` falls back
to politics; `"zzz"` matches nothing and a failed LLM yields `other`. -/
theorem c5_witness :
    categorize_article (some "llm-label") "election senate" =
      ("politics", false) ∧
    categorize_article none "senate" = ("politics", true) ∧
    categorize_article none "zzz" = ("other", true) := by
  have hmem : ("politics",
      ["politics", "government", "election", "policy", "political",
        "congress", "senate", "president"]) ∈ keywordTable := by decide
  refine ⟨?_, ?_, ?_⟩
  · exact (c5_categorize_article_threshold "election senate" "politics" _
      hmem).1 ⟨by decide, by decide⟩ (some "llm-label")
  · exact ((c5_categorize_article_threshold "senate" "politics" _
      hmem).2.1 ⟨by decide, by decide⟩).1
  · exact (c5_categorize_article_threshold "zzz" "politics" _
      hmem).2.2 (by decide)

/-! ## Claim C6 — deterministic heuristic fallback -/

/-- The judge annotations do not change the fields the heuristic reads. -/
theorem heuristicScore_setJudge (parseIso : String → Option ℚ) (now : ℚ)
    (d : RDetails) (s : Int) (r : String) :
    heuristicScore parseIso now (setJudge d s r) =
      heuristicScore parseIso now d := rfl

/-- Claim C6: with a forced LLM failure, ranking is a pure function of the
input and the clock (two runs coincide definitionally), every produced entry
carries the fallback judge score 5 and the fixed fallback reason, no article
is dropped, and the output is ordered by descending heuristic score
`max(0, 10 - age_hours/12) + min(len(summary), 300)/100`. -/
theorem c6_fallback_deterministic (parseIso : String → Option ℚ) (now : ℚ)
    (input : List (String × RDetails)) :
    rank_articles parseIso now input none none =
      rank_articles parseIso now input none none ∧
    ((rank_articles parseIso now input none none).map Prod.fst).Perm
      (input.map Prod.fst) ∧
    (∀ p ∈ rank_articles parseIso now input none none,
      p.2.judge_score = some 5 ∧
      p.2.judge_reason = some "Prioritized by recency and content richness") ∧
    (rank_articles parseIso now input none none).Pairwise
      (fun p q => heuristicScore parseIso now q.2 ≤
        heuristicScore parseIso now p.2) := by
  by_cases hin : input = []
  · subst hin
    refine ⟨rfl, ?_, ?_, ?_⟩ <;> simp [rank_articles]
  · have hr : rank_articles parseIso now input none none =
        (heuristic_sort parseIso now input).map (fun p =>
          (p.1, setJudge p.2 5 "Prioritized by recency and content richness")) := by
      simp [rank_articles, hin, rank_fallback, truncTopNItems]
    refine ⟨rfl, ?_, ?_, ?_⟩
    · rw [hr, List.map_map]
      have hfst : (Prod.fst ∘ fun p : String × RDetails =>
          (p.1, setJudge p.2 5 "Prioritized by recency and content richness"))
          = Prod.fst := funext fun p => rfl
      rw [hfst]
      exact (sortDescBy_perm _ _ _).map Prod.fst
    · rw [hr]
      intro p hp
      rcases List.mem_map.mp hp with ⟨q, _, rfl⟩
      exact ⟨rfl, rfl⟩
    · rw [hr]
      refine List.Pairwise.map _ ?_
        (sortDescBy_pairwise (fun p : String × RDetails =>
          heuristicScore parseIso now p.2) ratLeB ratLeB_total ratLeB_trans
          input)
      intro a b hab
      simpa [ratLeB, heuristicScore_setJudge] using hab

/-! ## Claim C1 — ranking completeness -/

theorem alookup_isSome_of_mem {α : Type} {m : List (String × α)} {t : String}
    (h : t ∈ m.map Prod.fst) : ∃ v, alookup m t = some v := by
  induction m with
  | nil => simp at h
  | cons p r ih =>
    by_cases hp : p.1 = t
    · exact ⟨p.2, by simp [alookup, hp]⟩
    · have hr : t ∈ r.map Prod.fst := by
        rcases List.mem_map.mp h with ⟨q, hq, hqt⟩
        rcases List.mem_cons.mp hq with rfl | hqr
        · exact absurd hqt hp
        · exact List.mem_map.mpr ⟨q, hqr, hqt⟩
      rcases ih hr with ⟨v, hv⟩
      exact ⟨v, by simp [alookup, hp, hv]⟩

theorem alookup_of_not_mem {α : Type} {m : List (String × α)} {t : String}
    (h : t ∉ m.map Prod.fst) : alookup m t = none := by
  induction m with
  | nil => rfl
  | cons p r ih =>
    have hp : p.1 ≠ t := by
      intro hpt
      exact h (List.mem_map.mpr ⟨p, List.mem_cons_self p r, hpt⟩)
    simp only [alookup, if_neg hp]
    exact ih (fun hr => h (by
      rcases List.mem_map.mp hr with ⟨q, hq, hqt⟩
      exact List.mem_map.mpr ⟨q, List.mem_cons_of_mem p hq, hqt⟩))

theorem alookup_append {α : Type} (m₁ m₂ : List (String × α)) (t : String) :
    alookup (m₁ ++ m₂) t =
      match alookup m₁ t with
      | some v => some v
      | none => alookup m₂ t := by
  induction m₁ with
  | nil => simp [alookup]
  | cons p r ih => by_cases hp : p.1 = t <;> simp [alookup, hp, ih]

/-- Keys of the ordered-dict insert: unchanged when the key is present,
appended otherwise. -/
theorem dictInsert_fst (m : List (String × Int × String)) (t : String)
    (v : Int × String) :
    (dictInsert m t v).map Prod.fst =
      if (m.map Prod.fst).contains t then m.map Prod.fst
      else m.map Prod.fst ++ [t] := by
  by_cases hc : (m.map Prod.fst).contains t = true
  · simp only [dictInsert, if_pos hc, List.map_map]
    have hcomp : (Prod.fst ∘ fun p : String × Int × String =>
        if p.1 = t then (t, v) else p) = Prod.fst := by
      funext p
      by_cases hp : p.1 = t <;> simp [hp]
    rw [hcomp]
  · have hc' : (m.map Prod.fst).contains t = false := by
      simpa using hc
    simp only [dictInsert, hc']
    simp

/-- Invariant of the `rank_map` loop: its keys stay distinct and stay inside
the input keys. -/
theorem buildRankMapGo_inv (keys : List String)
    (items : List (Option JItem)) :
    ∀ m : List (String × Int × String), ((m.map Prod.fst).Nodup) →
      (∀ x ∈ m.map Prod.fst, x ∈ keys) →
      ((buildRankMapGo keys m items).map Prod.fst).Nodup ∧
        ∀ x ∈ (buildRankMapGo keys m items).map Prod.fst, x ∈ keys := by
  induction items with
  | nil => exact fun m h1 h2 => ⟨h1, h2⟩
  | cons it? rest ih =>
    intro m h1 h2
    cases it? with
    | none => exact ih m h1 h2
    | some it =>
      cases htitle : it.title with
      | none =>
        simp only [buildRankMapGo, htitle]
        exact ih m h1 h2
      | some t =>
        simp only [buildRankMapGo, htitle]
        by_cases hc : keys.contains t = true
        · rw [if_pos hc]
          by_cases hmc : (m.map Prod.fst).contains t = true
          · refine ih _ ?_ ?_ <;> rw [dictInsert_fst, if_pos hmc]
            · exact h1
            · exact h2
          · have hmc' : (m.map Prod.fst).contains t = false := by simpa using hmc
            have htm : t ∉ m.map Prod.fst := by simpa using hmc
            refine ih _ ?_ ?_ <;>
              rw [dictInsert_fst, hmc', if_neg (by simp)]
            · refine List.nodup_append.mpr ⟨h1, List.nodup_singleton t, ?_⟩
              intro x hx hxt
              rw [List.mem_singleton.mp hxt] at hx
              exact htm hx
            · intro x hx
              rcases List.mem_append.mp hx with hx | hx
              · exact h2 x hx
              · rw [List.mem_singleton.mp hx]
                simpa using hc
        · rw [if_neg hc]
          exact ih m h1 h2

/-- The append-missing loop keeps the judged-titles list duplicate-free and
extends its membership by exactly the keys it scans. -/
theorem appendMissing_rts_spec (ks : List String)
    (m : List (String × Int × String)) (rts : List String)
    (h1 : rts.Nodup) (h2 : ∀ x, x ∈ rts ↔ x ∈ m.map Prod.fst) :
    (appendMissing ks m rts).2.Nodup ∧
      ∀ x, x ∈ (appendMissing ks m rts).2 ↔
        x ∈ m.map Prod.fst ∨ x ∈ ks := by
  induction ks generalizing m rts with
  | nil =>
    refine ⟨h1, fun x => ?_⟩
    simpa using h2 x
  | cons t₀ ks ih =>
    simp only [appendMissing]
    by_cases hc : (m.map Prod.fst).contains t₀ = true
    · rw [if_pos hc]
      have ht₀ : t₀ ∈ m.map Prod.fst := by simpa using hc
      obtain ⟨ha, hb⟩ := ih m rts h1 h2
      refine ⟨ha, fun x => ?_⟩
      rw [hb x]
      constructor
      · rintro (h | h)
        · exact Or.inl h
        · exact Or.inr (List.mem_cons_of_mem t₀ h)
      · rintro (h | h)
        · exact Or.inl h
        · rcases List.mem_cons.mp h with rfl | h
          · exact Or.inl ht₀
          · exact Or.inr h
    · rw [if_neg hc]
      have ht₀ : t₀ ∉ m.map Prod.fst := by simpa using hc
      have h1' : (rts ++ [t₀]).Nodup := by
        refine List.nodup_append.mpr ⟨h1, List.nodup_singleton t₀, ?_⟩
        intro x hx hxt
        rw [List.mem_singleton.mp hxt] at hx
        exact ht₀ ((h2 t₀).mp hx)
      have h2' : ∀ x, x ∈ rts ++ [t₀] ↔
          x ∈ (m ++ [(t₀, (5, "Relevant update worth tracking"))]).map
            Prod.fst := by
        intro x
        simp only [List.mem_append, List.mem_singleton, List.map_append,
          List.map_cons, List.map_nil, h2 x]
      obtain ⟨ha, hb⟩ := ih _ _ h1' h2'
      refine ⟨ha, fun x => ?_⟩
      rw [hb x]
      simp only [List.map_append, List.mem_append, List.map_cons,
        List.map_nil, List.mem_singleton, List.mem_cons]
      tauto

/-- Keys already judged keep their `rank_map` entry through the
append-missing loop. -/
theorem appendMissing_lookup_present (ks : List String)
    (m : List (String × Int × String)) (rts : List String) (t : String)
    (h : t ∈ m.map Prod.fst) :
    alookup (appendMissing ks m rts).1 t = alookup m t := by
  induction ks generalizing m rts with
  | nil => rfl
  | cons t₀ ks ih =>
    simp only [appendMissing]
    by_cases hc : (m.map Prod.fst).contains t₀ = true
    · rw [if_pos hc]
      exact ih m rts h
    · rw [if_neg hc]
      have h' : t ∈ (m ++ [(t₀, (5, "Relevant update worth tracking"))]).map
          Prod.fst := by
        rw [List.map_append]
        exact List.mem_append.mpr (Or.inl h)
      rw [ih _ _ h', alookup_append]
      rcases alookup_isSome_of_mem h with ⟨v, hv⟩
      rw [hv]

/-- An input title the model omitted ends up in `rank_map` with the neutral
score 5 and the generic reason. -/
theorem appendMissing_lookup_missing (ks : List String)
    (m : List (String × Int × String)) (rts : List String) (t : String)
    (hks : t ∈ ks) (hm : t ∉ m.map Prod.fst) :
    alookup (appendMissing ks m rts).1 t =
      some (5, "Relevant update worth tracking") := by
  induction ks generalizing m rts with
  | nil => exact absurd hks (List.not_mem_nil t)
  | cons t₀ ks ih =>
    simp only [appendMissing]
    by_cases hc : (m.map Prod.fst).contains t₀ = true
    · rw [if_pos hc]
      have ht₀ : t₀ ∈ m.map Prod.fst := by simpa using hc
      rcases List.mem_cons.mp hks with rfl | hks'
      · exact absurd ht₀ hm
      · exact ih m rts hks' hm
    · rw [if_neg hc]
      by_cases htt : t = t₀
      · subst htt
        have h' : t ∈ (m ++ [(t, (5, "Relevant update worth tracking"))]).map
            Prod.fst := by
          rw [List.map_append]
          exact List.mem_append.mpr (Or.inr (by simp))
        rw [appendMissing_lookup_present _ _ _ _ h', alookup_append,
          alookup_of_not_mem hm]
        simp [alookup]
      · rcases List.mem_cons.mp hks with heq | hks'
        · exact absurd heq htt
        · refine ih _ _ hks' ?_
          rw [List.map_append]
          intro hmem
          rcases List.mem_append.mp hmem with h | h
          · exact hm h
          · simp only [List.map_cons, List.map_nil,
              List.mem_singleton] at h
            exact htt h

/-- Claim C1: with `top_n` not given, `rank_articles` returns a result whose
titles are a permutation of the input titles, whatever the LLM returned
(including total failure, which takes the heuristic fallback); moreover on
the success path every input title the model omitted or mislabelled appears
in the result with the default judge score 5 and the generic reason. -/
theorem c1_rank_articles_completeness (parseIso : String → Option ℚ)
    (now : ℚ) (input : List (String × RDetails))
    (llm : Option (List (Option JItem)))
    (hnd : (input.map Prod.fst).Nodup) :
    ((rank_articles parseIso now input llm none).map Prod.fst).Perm
      (input.map Prod.fst) ∧
    (∀ items, llm = some items →
      ∀ t ∈ input.map Prod.fst,
        t ∉ (buildRankMap (input.map Prod.fst) items).map Prod.fst →
        ∃ d, (t, d) ∈ rank_articles parseIso now input llm none ∧
          d.judge_score = some 5 ∧
          d.judge_reason = some "Relevant update worth tracking") := by
  by_cases hin : input = []
  · subst hin
    constructor
    · simp [rank_articles]
    · intro items _ t ht
      simp at ht
  · cases llm with
    | none =>
      constructor
      · have hr : rank_articles parseIso now input none none =
            (heuristic_sort parseIso now input).map (fun p =>
              (p.1, setJudge p.2 5
                "Prioritized by recency and content richness")) := by
          simp [rank_articles, hin, rank_fallback, truncTopNItems]
        rw [hr, List.map_map]
        have hfst : (Prod.fst ∘ fun p : String × RDetails =>
            (p.1, setJudge p.2 5 "Prioritized by recency and content richness"))
            = Prod.fst := funext fun p => rfl
        rw [hfst]
        exact (sortDescBy_perm _ _ _).map Prod.fst
      · intro items heq
        exact absurd heq (by simp)
    | some items =>
      have hrs : rank_articles parseIso now input (some items) none =
          rank_success input items none := by
        simp [rank_articles, hin]
      have hm0 : ((rankM0 input items).map Prod.fst).Nodup ∧
          ∀ x ∈ (rankM0 input items).map Prod.fst, x ∈ rankKeys input :=
        buildRankMapGo_inv (rankKeys input) items [] (by simp) (by simp)
      have hperm0 : (rankRts0 input items).Perm
          ((rankM0 input items).map Prod.fst) :=
        sortDescBy_perm _ _ _
      have ham : (rankMr input items).2.Nodup ∧
          ∀ x, x ∈ (rankMr input items).2 ↔
            x ∈ (rankM0 input items).map Prod.fst ∨ x ∈ rankKeys input :=
        appendMissing_rts_spec (rankKeys input) (rankM0 input items)
          (rankRts0 input items) (hperm0.nodup_iff.mpr hm0.1)
          (fun x => hperm0.mem_iff)
      have hmem : ∀ x, x ∈ (rankMr input items).2 ↔ x ∈ rankKeys input := by
        intro x
        rw [ham.2 x]
        constructor
        · rintro (h | h)
          · exact hm0.2 x h
          · exact h
        · exact Or.inr
      have hpermfinal : (rankMr input items).2.Perm (rankKeys input) :=
        (List.perm_ext_iff_of_nodup ham.1 hnd).mpr hmem
      constructor
      · rw [hrs]
        show ((((rankMr input items).2).map (fun t =>
          (t, setJudge ((alookup input t).getD default)
            (rmGet (rankMr input items).1 t).1
            (rmGet (rankMr input items).1 t).2))).map Prod.fst).Perm
          (input.map Prod.fst)
        rw [List.map_map]
        have hfst : (Prod.fst ∘ fun t : String =>
            (t, setJudge ((alookup input t).getD default)
              (rmGet (rankMr input items).1 t).1
              (rmGet (rankMr input items).1 t).2)) = id := funext fun t => rfl
        rw [hfst, List.map_id]
        exact hpermfinal
      · intro items' heq t ht htm0
        obtain rfl : items = items' := Option.some.inj heq
        have hl : alookup (rankMr input items).1 t =
            some (5, "Relevant update worth tracking") :=
          appendMissing_lookup_missing (rankKeys input) (rankM0 input items)
            (rankRts0 input items) t ht htm0
        have htin : t ∈ (rankMr input items).2 := (hmem t).mpr ht
        refine ⟨setJudge ((alookup input t).getD default) 5
          "Relevant update worth tracking", ?_, rfl, rfl⟩
        rw [hrs]
        show (t, setJudge ((alookup input t).getD default) 5
            "Relevant update worth tracking") ∈
          ((rankMr input items).2).map (fun t =>
            (t, setJudge ((alookup input t).getD default)
              (rmGet (rankMr input items).1 t).1
              (rmGet (rankMr input items).1 t).2))
        refine List.mem_map.mpr ⟨t, htin, ?_⟩
        simp [rmGet, hl]

/-- Claim C1, witness: two input articles, a model response that judges only
`b` (plus a non-object entry and an unknown title); the result's titles are a
permutation of the input titles and the omitted `a` carries the default
judge score and generic reason. -/
theorem c1_witness :
    ((rank_articles (fun _ => none) 0 [("a", detA), ("b", detB)]
      (some demoItems) none).map Prod.fst).Perm
      (([("a", detA), ("b", detB)] : List (String × RDetails)).map
        Prod.fst) ∧
    ∃ d, ("a", d) ∈ rank_articles (fun _ => none) 0
        [("a", detA), ("b", detB)] (some demoItems) none ∧
      d.judge_score = some 5 ∧
      d.judge_reason = some "Relevant update worth tracking" := by
  have h := c1_rank_articles_completeness (fun _ => none) 0
    [("a", detA), ("b", detB)] (some demoItems) (by decide)
  exact ⟨h.1, h.2 demoItems rfl "a" (by decide) (by decide)⟩

end ReturnTrend
